import Mathlib

set_option maxHeartbeats 1000000

namespace PytorchScatter

/-- The reduction kinds of the kernel (`enum ReductionType` in `cpu/segment.cpp`). -/
inductive ReductionType
| SUM | MEAN | MIN | MAX
deriving DecidableEq, Repr

open ReductionType

/-- The string-to-kind table `reduce2REDUCE` (segment.cpp lines 12-14). -/
def reduce2REDUCE : List (String × ReductionType) :=
  [("sum", SUM), ("add", SUM), ("mean", MEAN), ("min", MIN), ("max", MAX)]

/-- The lookup `reduce2REDUCE.at(reduce)`: `std::map::at` throws on a missing key,
modelled as `none`. -/
def lookupReduce (reduce : String) : Option ReductionType :=
  reduce2REDUCE.lookup reduce

/-- `std::numeric_limits<int64_t>::max()`; the kernel is dispatched over all numeric
scalar types, embedded here at its `int64_t` instantiation. -/
def scalarMax : Int := 2 ^ 63 - 1

/-- `std::numeric_limits<int64_t>::lowest()`. -/
def scalarLowest : Int := -(2 ^ 63)

/-- `Reducer::init` (segment.cpp lines 39-47). -/
def Reducer.init : ReductionType → Int
| MIN => scalarMax
| MAX => scalarLowest
| _ => 0

/-- `Reducer::update` (segment.cpp lines 49-58): returns the new `(*val, *arg)` pair. -/
def Reducer.update (r : ReductionType) (val new_val arg new_arg : Int) : Int × Int :=
  if r = SUM ∨ r = MEAN then (val + new_val, arg)
  else if (r = MIN ∧ new_val < val) ∨ (r = MAX ∧ new_val > val) then (new_val, new_arg)
  else (val, arg)

/-- `Reducer::write` (segment.cpp lines 60-74): returns the pair
`(value stored at *address, value held by *arg_address afterwards)`; `oldArg` is the
previous content of `*arg_address`, which the branches that do not store through
`arg_address` leave unchanged.  Integer division (`int64_t`) truncates toward zero,
i.e. `Int.tdiv`. -/
def Reducer.write (r : ReductionType) (val arg oldArg count : Int) : Int × Int :=
  if r = SUM then (val, oldArg)
  else if r = MEAN then (Int.tdiv val (if count > 0 then count else 1), oldArg)
  else if count > 0 then (val, arg) else (0, oldArg)

/-- Lane loop of the accumulation step: for `k` in `[k0, k0+rem)`,
`Reducer::update(&vals[k], src_data[base + k], &args[k], new_arg)`
(segment.cpp lines 142-145 and 216-219). -/
def updateLoop (r : ReductionType) (src : List Int) (base : Nat) (new_arg : Int) :
    Nat → Nat → List Int → List Int → List Int × List Int
| _, 0, vals, args => (vals, args)
| k, rem+1, vals, args =>
  updateLoop r src base new_arg (k+1) rem
    (vals.set k (Reducer.update r (vals.getD k 0) (src.getD (base + k) 0) (args.getD k 0) new_arg).1)
    (args.set k (Reducer.update r (vals.getD k 0) (src.getD (base + k) 0) (args.getD k 0) new_arg).2)

/-- Lane loop of the finalize step: for `k` in `[k0, k0+rem)`,
`Reducer::write(out_data + base + k, vals[k], arg_out_data + base + k, args[k], count)`
(segment.cpp lines 147-151 and 221-227).  The state is `(out, argOut)`. -/
def writeLoop (r : ReductionType) (base : Nat) (count : Int) (vals args : List Int) :
    Nat → Nat → List Int × List Int → List Int × List Int
| _, 0, st => st
| k, rem+1, st =>
  writeLoop r base count vals args (k+1) rem
    (st.1.set (base + k) (Reducer.write r (vals.getD k 0) (args.getD k 0) (st.2.getD (base + k) 0) count).1,
     st.2.set (base + k) (Reducer.write r (vals.getD k 0) (args.getD k 0) (st.2.getD (base + k) 0) count).2)

/-- COO group-transition flush (segment.cpp lines 232-242): per lane `k`, write the
finished group at `base + k`, then reseed `vals[k]` from the just-updated `out` at
`nextBase + k`.  The state is `(out, argOut, vals)`. -/
def flushLoop (r : ReductionType) (base nextBase : Nat) (count : Int) (args : List Int) :
    Nat → Nat → List Int × List Int × List Int → List Int × List Int × List Int
| _, 0, st => st
| k, rem+1, st =>
  flushLoop r base nextBase count args (k+1) rem
    (let w := Reducer.write r (st.2.2.getD k 0) (args.getD k 0) (st.2.1.getD (base + k) 0) count
     let out1 := st.1.set (base + k) w.1
     (out1, st.2.1.set (base + k) w.2, st.2.2.set k (out1.getD (nextBase + k) 0)))

/-- CSR per-group accumulation loop (segment.cpp lines 141-146): for `e` running from
`e0` for `rem` steps, update all `K` lanes with `src_data[off + e*K + k]` and
source index `e`.  The state is `(vals, args)`. -/
def csrEloop (r : ReductionType) (src : List Int) (off K : Nat) :
    Nat → Nat → List Int × List Int → List Int × List Int
| _, 0, va => va
| e, rem+1, va =>
  csrEloop r src off K (e+1) rem (updateLoop r src (off + e * K) (Int.ofNat e) 0 K va.1 va.2)

/-- CSR outer group loop (segment.cpp lines 132-152), threading `(out, argOut, args)`.
`vals` is re-initialized to `Reducer::init()` for every group (lines 138-140), while the
`args` vector is declared outside the loop and persists across groups.  For group `n`,
`row_start`/`row_end` are the logical `indptr` elements at `(n / (M-1), n % (M-1))` and
its successor — the result of `IndexPtrToOffset` on the expanded `indptr` of row length
`M` — and the block base offset into `src` is `(n / (M-1)) * E * K` (line 137). -/
def csrLoop (r : ReductionType) (src indptr : List Int) (M E K : Nat) :
    Nat → Nat → List Int × List Int × List Int → List Int × List Int × List Int
| _, 0, st => st
| n, rem+1, st =>
  let row_start := indptr.getD (n / (M - 1) * M + n % (M - 1)) 0
  let row_end := indptr.getD (n / (M - 1) * M + n % (M - 1) + 1) 0
  let va := csrEloop r src (n / (M - 1) * E * K) K row_start.toNat (row_end - row_start).toNat
    (List.replicate K (Reducer.init r), st.2.2)
  let oa := writeLoop r (n * K) (row_end - row_start) va.1 va.2 0 K (st.1, st.2.1)
  csrLoop r src indptr M E K (n+1) rem (oa.1, oa.2, va.2)

/-- The CPU `segment_csr` kernel (segment.cpp lines 77-157) on flattened buffers.
`src` has `B * E * K` elements, `indptr` is the expanded offset array of `B` rows of
length `M` stored row-major, `out0` holds the initial contents of the output buffer
(`B * (M-1) * K` elements; the kernel never reads them), and `B`, `M`, `E`, `K` are the
shape parameters (`N = B * (M-1)` groups).  The argument output is allocated with
`torch::full_like(out, src.size(reduce_dim))`, i.e. every slot starts at the sentinel
`E`; it is returned only for MIN/MAX.  An unknown `reduce` string makes
`reduce2REDUCE.at` throw before any reduction runs, modelled as `none`. -/
def segment_csr (src indptr out0 : List Int) (B M E K : Nat) (reduce : String) :
    Option (List Int × Option (List Int)) :=
  match lookupReduce reduce with
  | none => none
  | some r =>
    let st := csrLoop r src indptr M E K 0 (B * (M - 1))
      (out0, List.replicate out0.length (Int.ofNat E), List.replicate K 0)
    some (st.1, if r = MIN ∨ r = MAX then some st.2.1 else none)

/-- State of the COO inner loop: the output buffers, the `K` accumulators `vals`, the
persisting `args` vector, the current group index `idx` and the in-block position
`row_start` where the current group began. -/
structure CooSt where
  out : List Int
  argOut : List Int
  vals : List Int
  args : List Int
  idx : Int
  row_start : Nat

/-- COO inner element loop (segment.cpp lines 214-246), iterating `e2` with remaining
fuel `rem` (so `e2 + rem = E2` at every call, and `rem = 1` is the `e_2 == E_2 - 1`
case).  Each step updates all lanes with `src_data[e1*E2*K + e2*K + k]`; the last step
writes the pending group at `e1*N*K + idx*K + k`; otherwise the next index is peeked at
logical position `(e1, e2+1)`, the `assert(idx <= next_idx)` is modelled by returning
`none` when violated, and a strict increase flushes the group and reseeds the
accumulators from `out` at the next group's slot. -/
def cooInner (r : ReductionType) (src index : List Int) (e1 E2 K N : Nat) :
    Nat → Nat → CooSt → Option CooSt
| _, 0, st => some st
| e2, 1, st =>
  let va := updateLoop r src (e1 * E2 * K + e2 * K) (Int.ofNat e2) 0 K st.vals st.args
  let oa := writeLoop r (e1 * N * K + st.idx.toNat * K) ((e2 : Int) + 1 - (st.row_start : Int))
    va.1 va.2 0 K (st.out, st.argOut)
  some { st with out := oa.1, argOut := oa.2, vals := va.1, args := va.2 }
| e2, rem+2, st =>
  let va := updateLoop r src (e1 * E2 * K + e2 * K) (Int.ofNat e2) 0 K st.vals st.args
  let next_idx := index.getD (e1 * E2 + e2 + 1) 0
  if st.idx ≤ next_idx then
    if st.idx ≠ next_idx then
      let oav := flushLoop r (e1 * N * K + st.idx.toNat * K) (e1 * N * K + next_idx.toNat * K)
        ((e2 : Int) + 1 - (st.row_start : Int)) va.2 0 K (st.out, st.argOut, va.1)
      cooInner r src index e1 E2 K N (e2+1) (rem+1)
        { out := oav.1, argOut := oav.2.1, vals := oav.2.2, args := va.2,
          idx := next_idx, row_start := e2 + 1 }
    else
      cooInner r src index e1 E2 K N (e2+1) (rem+1)
        { st with vals := va.1, args := va.2, idx := next_idx }
  else
    none

/-- COO outer block loop (segment.cpp lines 205-247), threading `(out, argOut, args)`.
For each block `e1`, the first group index is read at logical position `(e1, 0)` and the
`K` accumulators are seeded from `out_data[e1*N*K + k]` (line 210 — note: the seed
offset carries no `idx*K` term). -/
def cooBlocks (r : ReductionType) (src index : List Int) (E2 K N : Nat) :
    Nat → Nat → List Int × List Int × List Int → Option (List Int × List Int × List Int)
| _, 0, st => some st
| e1, rem+1, st =>
  match cooInner r src index e1 E2 K N 0 E2
      ⟨st.1, st.2.1, (List.range K).map (fun k => st.1.getD (e1 * N * K + k) 0), st.2.2,
       index.getD (e1 * E2) 0, 0⟩ with
  | none => none
  | some st' => cooBlocks r src index E2 K N (e1+1) rem (st'.out, st'.argOut, st'.args)

/-- The CPU `segment_coo` kernel (segment.cpp lines 159-252) on flattened buffers.
`src` has `E1 * E2 * K` elements, `index` is the expanded index array of `E1` blocks of
length `E2` stored row-major, `out` is the caller-supplied output buffer
(`E1 * N * K` elements, read-modify-write).  The argument output starts as
`torch::full_like(out, src.size(reduce_dim))`, i.e. filled with the sentinel `E2`, and
is returned only for MIN/MAX.  A sortedness-assertion failure or an unknown `reduce`
string yields `none`. -/
def segment_coo (src index out : List Int) (E1 E2 K N : Nat) (reduce : String) :
    Option (List Int × Option (List Int)) :=
  match lookupReduce reduce with
  | none => none
  | some r =>
    match cooBlocks r src index E2 K N 0 E1
        (out, List.replicate out.length (Int.ofNat E2), List.replicate K 0) with
    | none => none
    | some st => some (st.1, if r = MIN ∨ r = MAX then some st.2.1 else none)

/-- Sum of `src` over the half-open index range `[a, b)`; written from the spec's words
("output[g] equals the sum of src over `[indptr[g], indptr[g+1])`") for comparison with
the kernel. -/
def intervalSum (src : List Int) (a b : Int) : Int :=
  ∑ j in Finset.range (b - a).toNat, src.getD (a.toNat + j) 0

/-- The per-group accumulator fold of the 1-D CSR kernel (`B = 1`, `K = 1`): the
`(vals[0], args[0])` pair obtained by folding `Reducer::update` over group `g`'s window
`[indptr[g], indptr[g+1])`, starting from `Reducer::init()` and incoming argument-slot
content `aIn` (the `args` vector persists across groups in the C++). -/
def csrGroup1 (r : ReductionType) (src indptr : List Int) (aIn : Int) (g : Nat) :
    Int × Int :=
  ((csrEloop r src 0 1 ((indptr.getD g 0).toNat)
      ((indptr.getD (g+1) 0 - indptr.getD g 0).toNat) ([Reducer.init r], [aIn])).1.getD 0 0,
   (csrEloop r src 0 1 ((indptr.getD g 0).toNat)
      ((indptr.getD (g+1) 0 - indptr.getD g 0).toNat) ([Reducer.init r], [aIn])).2.getD 0 0)

/-- The `(out[g], argOut[g])` pair produced by the finalize step of the 1-D CSR kernel
for group `g`, given the argument-output slot's previous content `oldArg`. -/
def csrGroupWrite1 (r : ReductionType) (src indptr : List Int) (aIn oldArg : Int)
    (g : Nat) : Int × Int :=
  Reducer.write r (csrGroup1 r src indptr aIn g).1 (csrGroup1 r src indptr aIn g).2 oldArg
    (indptr.getD (g+1) 0 - indptr.getD g 0)

section ListHelpers

lemma getD_set_ne (l : List Int) (i j : Nat) (x : Int) (h : i ≠ j) :
    (l.set i x).getD j 0 = l.getD j 0 := by
  rw [List.getD_eq_getElem?_getD, List.getD_eq_getElem?_getD, List.getElem?_set_ne h]

lemma getD_set_self (l : List Int) (i : Nat) (x : Int) (h : i < l.length) :
    (l.set i x).getD i 0 = x := by
  rw [List.getD_eq_getElem?_getD, List.getElem?_set_self', List.getElem?_eq_getElem h]
  rfl

lemma getD_of_le (l : List Int) (n : Nat) (h : l.length ≤ n) : l.getD n 0 = 0 := by
  rw [List.getD_eq_getElem?_getD, List.getElem?_eq_none h]
  rfl

lemma getD_replicate (n i : Nat) (x : Int) (h : i < n) :
    (List.replicate n x).getD i 0 = x := by
  rw [List.getD_eq_getElem?_getD, List.getElem?_replicate_of_lt h]
  rfl

lemma ext_of_getD (l m : List Int) (hl : l.length = m.length)
    (h : ∀ i, l.getD i 0 = m.getD i 0) : l = m := by
  apply List.ext_getElem?
  intro i
  by_cases hi : i < l.length
  · rw [List.getElem?_eq_getElem hi, List.getElem?_eq_getElem (hl ▸ hi)]
    have := h i
    rwa [List.getD_eq_getElem?_getD, List.getD_eq_getElem?_getD,
      List.getElem?_eq_getElem hi, List.getElem?_eq_getElem (hl ▸ hi),
      Option.getD_some, Option.getD_some, ← Option.some_inj] at this
  · rw [List.getElem?_eq_none (Nat.le_of_not_lt hi),
      List.getElem?_eq_none (hl ▸ Nat.le_of_not_lt hi)]

end ListHelpers

section LoopLemmas

lemma updateLoop_length (r : ReductionType) (src : List Int) (base : Nat) (na : Int) :
    ∀ rem k vals args, ((updateLoop r src base na k rem vals args).1.length = vals.length ∧
      (updateLoop r src base na k rem vals args).2.length = args.length) := by
  intro rem
  induction rem with
  | zero => intro k vals args; exact ⟨rfl, rfl⟩
  | succ n ih =>
    intro k vals args
    rw [updateLoop]
    refine ⟨(ih _ _ _).1.trans ?_, (ih _ _ _).2.trans ?_⟩ <;> simp [List.length_set]

lemma csrEloop_length (r : ReductionType) (src : List Int) (off K : Nat) :
    ∀ rem e va, ((csrEloop r src off K e rem va).1.length = va.1.length ∧
      (csrEloop r src off K e rem va).2.length = va.2.length) := by
  intro rem
  induction rem with
  | zero => intro e va; exact ⟨rfl, rfl⟩
  | succ n ih =>
    intro e va
    have h1 := updateLoop_length r src (off + e * K) (Int.ofNat e) K 0 va.1 va.2
    have h2 := ih (e+1) (updateLoop r src (off + e * K) (Int.ofNat e) 0 K va.1 va.2)
    rw [csrEloop]
    exact ⟨h2.1.trans h1.1, h2.2.trans h1.2⟩

lemma writeLoop_length (r : ReductionType) (base : Nat) (count : Int) (vals args : List Int) :
    ∀ rem k st, ((writeLoop r base count vals args k rem st).1.length = st.1.length ∧
      (writeLoop r base count vals args k rem st).2.length = st.2.length) := by
  intro rem
  induction rem with
  | zero => intro k st; exact ⟨rfl, rfl⟩
  | succ n ih =>
    intro k st
    rw [writeLoop]
    refine ⟨(ih _ _).1.trans ?_, (ih _ _).2.trans ?_⟩ <;> simp [List.length_set]

lemma writeLoop_frame_ne (r : ReductionType) (base : Nat) (count : Int) (vals args : List Int) :
    ∀ rem k st j, (∀ i, k ≤ i → i < k + rem → j ≠ base + i) →
      ((writeLoop r base count vals args k rem st).1.getD j 0 = st.1.getD j 0 ∧
       (writeLoop r base count vals args k rem st).2.getD j 0 = st.2.getD j 0) := by
  intro rem
  induction rem with
  | zero => intro k st j _; exact ⟨rfl, rfl⟩
  | succ n ih =>
    intro k st j hj
    have hk : j ≠ base + k := hj k (Nat.le_refl k) (by omega)
    rw [writeLoop]
    constructor
    · refine ((ih (k+1) _ j (fun i hi hi2 => hj i (by omega) (by omega))).1).trans ?_
      exact getD_set_ne _ _ _ _ (fun he => hk he.symm)
    · refine ((ih (k+1) _ j (fun i hi hi2 => hj i (by omega) (by omega))).2).trans ?_
      exact getD_set_ne _ _ _ _ (fun he => hk he.symm)

lemma flushLoop_length (r : ReductionType) (base nextBase : Nat) (count : Int)
    (args : List Int) :
    ∀ rem k st, ((flushLoop r base nextBase count args k rem st).1.length = st.1.length ∧
      (flushLoop r base nextBase count args k rem st).2.1.length = st.2.1.length ∧
      (flushLoop r base nextBase count args k rem st).2.2.length = st.2.2.length) := by
  intro rem
  induction rem with
  | zero => intro k st; exact ⟨rfl, rfl, rfl⟩
  | succ n ih =>
    intro k st
    rw [flushLoop]
    refine ⟨(ih _ _).1.trans ?_, (ih _ _).2.1.trans ?_, (ih _ _).2.2.trans ?_⟩ <;>
      simp [List.length_set]

lemma flushLoop_frame_ne (r : ReductionType) (base nextBase : Nat) (count : Int)
    (args : List Int) :
    ∀ rem k st j, (∀ i, k ≤ i → i < k + rem → j ≠ base + i) →
      ((flushLoop r base nextBase count args k rem st).1.getD j 0 = st.1.getD j 0 ∧
       (flushLoop r base nextBase count args k rem st).2.1.getD j 0 = st.2.1.getD j 0) := by
  intro rem
  induction rem with
  | zero => intro k st j _; exact ⟨rfl, rfl⟩
  | succ n ih =>
    intro k st j hj
    have hk : j ≠ base + k := hj k (Nat.le_refl k) (by omega)
    rw [flushLoop]
    constructor
    · refine ((ih (k+1) _ j (fun i hi hi2 => hj i (by omega) (by omega))).1).trans ?_
      exact getD_set_ne _ _ _ _ (fun he => hk he.symm)
    · refine ((ih (k+1) _ j (fun i hi hi2 => hj i (by omega) (by omega))).2).trans ?_
      exact getD_set_ne _ _ _ _ (fun he => hk he.symm)

lemma updateLoop_one (r : ReductionType) (src : List Int) (base : Nat) (na : Int)
    (vals args : List Int) :
    updateLoop r src base na 0 1 vals args =
      (vals.set 0 (Reducer.update r (vals.getD 0 0) (src.getD base 0) (args.getD 0 0) na).1,
       args.set 0 (Reducer.update r (vals.getD 0 0) (src.getD base 0) (args.getD 0 0) na).2) := by
  simp [updateLoop]

lemma writeLoop_one (r : ReductionType) (base : Nat) (count : Int) (vals args : List Int)
    (st : List Int × List Int) :
    writeLoop r base count vals args 0 1 st =
      (st.1.set base (Reducer.write r (vals.getD 0 0) (args.getD 0 0) (st.2.getD base 0) count).1,
       st.2.set base (Reducer.write r (vals.getD 0 0) (args.getD 0 0) (st.2.getD base 0) count).2) := by
  simp [writeLoop]

end LoopLemmas

section ReducerLemmas

lemma update_sum (v w a na : Int) : Reducer.update SUM v w a na = (v + w, a) := by
  rw [Reducer.update]; simp

lemma update_mean (v w a na : Int) : Reducer.update MEAN v w a na = (v + w, a) := by
  rw [Reducer.update]; simp

lemma update_min_lt (v w a na : Int) (h : w < v) : Reducer.update MIN v w a na = (w, na) := by
  rw [Reducer.update]; simp [h]

lemma update_min_not_lt (v w a na : Int) (h : ¬ w < v) :
    Reducer.update MIN v w a na = (v, a) := by
  rw [Reducer.update]; simp [h]

lemma update_max_gt (v w a na : Int) (h : v < w) : Reducer.update MAX v w a na = (w, na) := by
  rw [Reducer.update]; simp [h]

lemma update_max_not_gt (v w a na : Int) (h : ¬ v < w) :
    Reducer.update MAX v w a na = (v, a) := by
  rw [Reducer.update]; simp [h]

lemma write_sum (v a old cnt : Int) : Reducer.write SUM v a old cnt = (v, old) := by
  rw [Reducer.write]; simp

lemma write_mean (v a old cnt : Int) :
    Reducer.write MEAN v a old cnt = (Int.tdiv v (if cnt > 0 then cnt else 1), old) := by
  rw [Reducer.write]; simp

lemma write_min_pos (v a old cnt : Int) (h : 0 < cnt) :
    Reducer.write MIN v a old cnt = (v, a) := by
  rw [Reducer.write]; simp [h]

lemma write_min_nonpos (v a old cnt : Int) (h : ¬ 0 < cnt) :
    Reducer.write MIN v a old cnt = (0, old) := by
  rw [Reducer.write]; simp [h]

lemma write_max_pos (v a old cnt : Int) (h : 0 < cnt) :
    Reducer.write MAX v a old cnt = (v, a) := by
  rw [Reducer.write]; simp [h]

lemma write_max_nonpos (v a old cnt : Int) (h : ¬ 0 < cnt) :
    Reducer.write MAX v a old cnt = (0, old) := by
  rw [Reducer.write]; simp [h]

lemma getD_singleton (x : Int) : ([x] : List Int).getD 0 0 = x := rfl

end ReducerLemmas

section CsrLemmas

lemma csrLoop_length (r : ReductionType) (src indptr : List Int) (M E K : Nat) :
    ∀ rem n st, ((csrLoop r src indptr M E K n rem st).1.length = st.1.length ∧
      (csrLoop r src indptr M E K n rem st).2.1.length = st.2.1.length ∧
      (csrLoop r src indptr M E K n rem st).2.2.length = st.2.2.length) := by
  intro rem
  induction rem with
  | zero => intro n st; exact ⟨rfl, rfl, rfl⟩
  | succ m ih =>
    intro n st
    simp only [csrLoop]
    refine ⟨(ih _ _).1.trans ?_, (ih _ _).2.1.trans ?_, (ih _ _).2.2.trans ?_⟩
    · exact (writeLoop_length _ _ _ _ _ _ _ _).1
    · exact (writeLoop_length _ _ _ _ _ _ _ _).2
    · exact (csrEloop_length _ _ _ _ _ _ _).2

lemma csrLoop_frame_ne (r : ReductionType) (src indptr : List Int) (M E K : Nat) :
    ∀ rem n st j, (∀ g i, n ≤ g → g < n + rem → i < K → j ≠ g * K + i) →
      ((csrLoop r src indptr M E K n rem st).1.getD j 0 = st.1.getD j 0 ∧
       (csrLoop r src indptr M E K n rem st).2.1.getD j 0 = st.2.1.getD j 0) := by
  intro rem
  induction rem with
  | zero => intro n st j _; exact ⟨rfl, rfl⟩
  | succ m ih =>
    intro n st j hj
    simp only [csrLoop]
    constructor
    · refine ((ih (n+1) _ j (fun g i hg hg2 hi => hj g i (by omega) (by omega) hi)).1).trans ?_
      exact (writeLoop_frame_ne _ _ _ _ _ _ _ _ _
        (fun i h0 hik => hj n i (Nat.le_refl n) (by omega) (by omega))).1
    · refine ((ih (n+1) _ j (fun g i hg hg2 hi => hj g i (by omega) (by omega) hi)).2).trans ?_
      exact (writeLoop_frame_ne _ _ _ _ _ _ _ _ _
        (fun i h0 hik => hj n i (Nat.le_refl n) (by omega) (by omega))).2

/-- Unfolding of one group of the 1-D CSR outer loop (`B = 1`, `K = 1`, `M = N + 1`). -/
lemma csrLoop_step1 (r : ReductionType) (src indptr : List Int) (N E n m : Nat)
    (hn : n < N) (out argOut : List Int) (a0 : Int) :
    csrLoop r src indptr (N+1) E 1 n (m+1) (out, argOut, [a0]) =
      csrLoop r src indptr (N+1) E 1 (n+1) m
        (out.set n (csrGroupWrite1 r src indptr a0 (argOut.getD n 0) n).1,
         argOut.set n (csrGroupWrite1 r src indptr a0 (argOut.getD n 0) n).2,
         (csrEloop r src 0 1 ((indptr.getD n 0).toNat)
            ((indptr.getD (n+1) 0 - indptr.getD n 0).toNat) ([Reducer.init r], [a0])).2) := by
  conv_lhs => rw [csrLoop]
  have hM : N + 1 - 1 = N := by omega
  simp only [hM, Nat.div_eq_of_lt hn, Nat.mod_eq_of_lt hn, Nat.zero_mul, Nat.zero_add,
    Nat.mul_one, Nat.one_mul, List.replicate_one, writeLoop_one, csrGroupWrite1, csrGroup1]

/-- The 1-D CSR master lemma: after running the outer loop over groups `[n, n+rem)`,
position `g` of the value output holds the finalize result of group `g`'s fold for some
incoming argument-slot content `aIn`, with the argument-output slot's previous content
still the one from `argOut` (groups before `g` only write positions below `g`). -/
lemma csrLoop_get1 (r : ReductionType) (src indptr : List Int) (N E : Nat) :
    ∀ rem n out argOut args, out.length = N → argOut.length = N → args.length = 1 →
      n + rem ≤ N → ∀ g, n ≤ g → g < n + rem →
      ∃ aIn : Int,
        (csrLoop r src indptr (N+1) E 1 n rem (out, argOut, args)).1.getD g 0 =
          (csrGroupWrite1 r src indptr aIn (argOut.getD g 0) g).1 ∧
        (csrLoop r src indptr (N+1) E 1 n rem (out, argOut, args)).2.1.getD g 0 =
          (csrGroupWrite1 r src indptr aIn (argOut.getD g 0) g).2 := by
  intro rem
  induction rem with
  | zero => intro n out argOut args _ _ _ _ g hg1 hg2; omega
  | succ m ih =>
    intro n out argOut args hout hargOut hargs hle g hg1 hg2
    obtain ⟨a0, rfl⟩ := List.length_eq_one.mp hargs
    have hnN : n < N := by omega
    rw [csrLoop_step1 r src indptr N E n m hnN out argOut a0]
    rcases Nat.eq_or_lt_of_le hg1 with rfl | hgn
    · refine ⟨a0, ?_, ?_⟩
      · rw [(csrLoop_frame_ne r src indptr (N+1) E 1 m (n+1) _ n
          (fun g2 i hg2' hlt hi => by omega)).1]
        exact getD_set_self _ _ _ (by omega : n < out.length)
      · rw [(csrLoop_frame_ne r src indptr (N+1) E 1 m (n+1) _ n
          (fun g2 i hg2' hlt hi => by omega)).2]
        exact getD_set_self _ _ _ (by omega : n < argOut.length)
    · obtain ⟨aIn, h1, h2⟩ := ih (n+1)
        (out.set n (csrGroupWrite1 r src indptr a0 (argOut.getD n 0) n).1)
        (argOut.set n (csrGroupWrite1 r src indptr a0 (argOut.getD n 0) n).2)
        ((csrEloop r src 0 1 ((indptr.getD n 0).toNat)
            ((indptr.getD (n+1) 0 - indptr.getD n 0).toNat) ([Reducer.init r], [a0])).2)
        (by simp [List.length_set, hout]) (by simp [List.length_set, hargOut])
        ((csrEloop_length _ _ _ _ _ _ _).2) (by omega) g (by omega) (by omega)
      refine ⟨aIn, ?_, ?_⟩
      · rwa [getD_set_ne _ _ _ _ (by omega : n ≠ g)] at h1
      · rwa [getD_set_ne _ _ _ _ (by omega : n ≠ g)] at h2

/-- One step of the `K = 1` accumulation fold. -/
lemma csrEloop_step_one (r : ReductionType) (src : List Int) (off e rem : Nat) (v a : Int) :
    csrEloop r src off 1 e (rem+1) ([v], [a]) =
      csrEloop r src off 1 (e+1) rem
        ([(Reducer.update r v (src.getD (off + e) 0) a (Int.ofNat e)).1],
         [(Reducer.update r v (src.getD (off + e) 0) a (Int.ofNat e)).2]) := by
  conv_lhs => rw [csrEloop]
  simp [updateLoop_one]

/-- The `K = 1` SUM fold is `v` plus the sum of the window. -/
lemma csrEloop_sum1 (src : List Int) (off : Nat) : ∀ rem e v a,
    csrEloop SUM src off 1 e rem ([v], [a]) =
      ([v + ∑ j in Finset.range rem, src.getD (off + e + j) 0], [a]) := by
  intro rem
  induction rem with
  | zero => intro e v a; simp [csrEloop]
  | succ m ih =>
    intro e v a
    rw [csrEloop_step_one]
    simp only [update_sum v (src.getD (off + e) 0) a (Int.ofNat e)]
    rw [ih]
    have hidx : ∀ j, off + (e + 1) + j = off + e + (j + 1) := fun j => by omega
    rw [Finset.sum_range_succ']
    simp only [hidx, Nat.add_zero]
    congr 2
    ring

/-- The `K = 1` MIN fold: the resulting value is a lower bound of `v` and of the whole
window, and either nothing beat `v` (value and argument slot unchanged) or the argument
slot records the first window position attaining the resulting value, which strictly
beats `v` and every earlier window element. -/
lemma csrEloop_min1 (src : List Int) (off : Nat) : ∀ rem e v a,
    ((csrEloop MIN src off 1 e rem ([v], [a])).1.getD 0 0 ≤ v ∧
     (∀ j, j < rem → (csrEloop MIN src off 1 e rem ([v], [a])).1.getD 0 0 ≤
        src.getD (off + e + j) 0)) ∧
    (((csrEloop MIN src off 1 e rem ([v], [a])).1.getD 0 0 = v ∧
      (csrEloop MIN src off 1 e rem ([v], [a])).2.getD 0 0 = a) ∨
     (∃ j, j < rem ∧
       (csrEloop MIN src off 1 e rem ([v], [a])).2.getD 0 0 = Int.ofNat (e + j) ∧
       src.getD (off + e + j) 0 = (csrEloop MIN src off 1 e rem ([v], [a])).1.getD 0 0 ∧
       (csrEloop MIN src off 1 e rem ([v], [a])).1.getD 0 0 < v ∧
       ∀ j2, j2 < j → (csrEloop MIN src off 1 e rem ([v], [a])).1.getD 0 0 <
         src.getD (off + e + j2) 0)) := by
  intro rem
  induction rem with
  | zero =>
    intro e v a
    refine ⟨⟨by simp [csrEloop], fun j hj => by omega⟩, Or.inl ⟨by simp [csrEloop], by simp [csrEloop]⟩⟩
  | succ m ih =>
    intro e v a
    rw [csrEloop_step_one]
    by_cases hlt : src.getD (off + e) 0 < v
    · simp only [update_min_lt v (src.getD (off + e) 0) a (Int.ofNat e) hlt]
      obtain ⟨⟨hb1, hb2⟩, hd⟩ := ih (e+1) (src.getD (off + e) 0) (Int.ofNat e)
      refine ⟨⟨le_trans hb1 (le_of_lt hlt), ?_⟩, ?_⟩
      · intro j hj
        cases j with
        | zero => simpa using hb1
        | succ j2 =>
          have h := hb2 j2 (by omega)
          rwa [show off + (e+1) + j2 = off + e + (j2+1) from by omega] at h
      · right
        rcases hd with ⟨he1, he2⟩ | ⟨j1, hj1, hr1, hr2, hr3, hr4⟩
        · refine ⟨0, by omega, by simpa using he2, ?_, ?_, fun j2 hj2 => by omega⟩
          · rw [Nat.add_zero, he1]
          · rw [he1]; exact hlt
        · refine ⟨j1 + 1, by omega, ?_, ?_, lt_trans hr3 hlt, ?_⟩
          · rw [hr1]; congr 1; omega
          · rwa [show off + e + (j1+1) = off + (e+1) + j1 from by omega]
          · intro j2 hj2
            cases j2 with
            | zero => rw [Nat.add_zero]; exact hr3
            | succ j3 =>
              have h := hr4 j3 (by omega)
              rwa [show off + e + (j3+1) = off + (e+1) + j3 from by omega]
    · simp only [update_min_not_lt v (src.getD (off + e) 0) a (Int.ofNat e) hlt]
      obtain ⟨⟨hb1, hb2⟩, hd⟩ := ih (e+1) v a
      refine ⟨⟨hb1, ?_⟩, ?_⟩
      · intro j hj
        cases j with
        | zero => rw [Nat.add_zero]; exact le_trans hb1 (le_of_not_lt hlt)
        | succ j2 =>
          have h := hb2 j2 (by omega)
          rwa [show off + e + (j2+1) = off + (e+1) + j2 from by omega]
      · rcases hd with ⟨he1, he2⟩ | ⟨j1, hj1, hr1, hr2, hr3, hr4⟩
        · exact Or.inl ⟨he1, he2⟩
        · refine Or.inr ⟨j1 + 1, by omega, ?_, ?_, hr3, ?_⟩
          · rw [hr1]; congr 1; omega
          · rwa [show off + e + (j1+1) = off + (e+1) + j1 from by omega]
          · intro j2 hj2
            cases j2 with
            | zero =>
              rw [Nat.add_zero]
              exact lt_of_lt_of_le hr3 (le_of_not_lt hlt)
            | succ j3 =>
              have h := hr4 j3 (by omega)
              rwa [show off + e + (j3+1) = off + (e+1) + j3 from by omega]

lemma segment_csr_eq (src indptr out0 : List Int) (B M E K : Nat) (reduce : String)
    (r : ReductionType) (h : lookupReduce reduce = some r) :
    segment_csr src indptr out0 B M E K reduce =
      some ((csrLoop r src indptr M E K 0 (B * (M-1))
          (out0, List.replicate out0.length (Int.ofNat E), List.replicate K 0)).1,
        if r = MIN ∨ r = MAX then
          some (csrLoop r src indptr M E K 0 (B * (M-1))
            (out0, List.replicate out0.length (Int.ofNat E), List.replicate K 0)).2.1
        else none) := by
  unfold segment_csr
  rw [h]

lemma segment_csr_eq_sum (src indptr out0 : List Int) (B M E K : Nat) :
    segment_csr src indptr out0 B M E K "sum" =
      some ((csrLoop SUM src indptr M E K 0 (B * (M-1))
        (out0, List.replicate out0.length (Int.ofNat E), List.replicate K 0)).1, none) := by
  rw [segment_csr_eq src indptr out0 B M E K "sum" SUM rfl]
  simp

lemma segment_csr_eq_mean (src indptr out0 : List Int) (B M E K : Nat) :
    segment_csr src indptr out0 B M E K "mean" =
      some ((csrLoop MEAN src indptr M E K 0 (B * (M-1))
        (out0, List.replicate out0.length (Int.ofNat E), List.replicate K 0)).1, none) := by
  rw [segment_csr_eq src indptr out0 B M E K "mean" MEAN rfl]
  simp

lemma segment_csr_eq_min (src indptr out0 : List Int) (B M E K : Nat) :
    segment_csr src indptr out0 B M E K "min" =
      some ((csrLoop MIN src indptr M E K 0 (B * (M-1))
          (out0, List.replicate out0.length (Int.ofNat E), List.replicate K 0)).1,
        some (csrLoop MIN src indptr M E K 0 (B * (M-1))
          (out0, List.replicate out0.length (Int.ofNat E), List.replicate K 0)).2.1) := by
  rw [segment_csr_eq src indptr out0 B M E K "min" MIN rfl]
  simp

lemma segment_csr_eq_max (src indptr out0 : List Int) (B M E K : Nat) :
    segment_csr src indptr out0 B M E K "max" =
      some ((csrLoop MAX src indptr M E K 0 (B * (M-1))
          (out0, List.replicate out0.length (Int.ofNat E), List.replicate K 0)).1,
        some (csrLoop MAX src indptr M E K 0 (B * (M-1))
          (out0, List.replicate out0.length (Int.ofNat E), List.replicate K 0)).2.1) := by
  rw [segment_csr_eq src indptr out0 B M E K "max" MAX rfl]
  simp

lemma writeLoop_length_fst_congr (r : ReductionType) (base : Nat) (count : Int)
    (vals args : List Int) (rem k : Nat) (out out2 argOut : List Int)
    (h : out.length = out2.length) :
    (writeLoop r base count vals args k rem (out, argOut)).1.length =
    (writeLoop r base count vals args k rem (out2, argOut)).1.length := by
  rw [(writeLoop_length _ _ _ _ _ _ _ _).1, (writeLoop_length _ _ _ _ _ _ _ _).1]
  exact h

/-- The finalize lane loop writes the same values into two output buffers of equal
length (the written value never depends on the output buffer's prior contents), and
updates the argument buffer identically. -/
lemma writeLoop_congr (r : ReductionType) (base : Nat) (count : Int) (vals args : List Int) :
    ∀ rem k out out2 argOut, out.length = out2.length →
      (writeLoop r base count vals args k rem (out, argOut)).2 =
        (writeLoop r base count vals args k rem (out2, argOut)).2 ∧
      ∀ j i, k ≤ i → i < k + rem → j = base + i →
        (writeLoop r base count vals args k rem (out, argOut)).1.getD j 0 =
        (writeLoop r base count vals args k rem (out2, argOut)).1.getD j 0 := by
  intro rem
  induction rem with
  | zero => intro k out out2 argOut _; exact ⟨rfl, fun j i h1 h2 _ => by omega⟩
  | succ m ih =>
    intro k out out2 argOut hlen
    rw [writeLoop, writeLoop]
    constructor
    · exact (ih (k+1) _ _ _ (by simp [List.length_set, hlen])).1
    · intro j i h1 h2 hj
      rcases Nat.eq_or_lt_of_le h1 with rfl | hik
      · have hfr1 := writeLoop_frame_ne r base count vals args m (k+1)
          (out.set (base + k)
            (Reducer.write r (vals.getD k 0) (args.getD k 0) (argOut.getD (base + k) 0) count).1,
           argOut.set (base + k)
            (Reducer.write r (vals.getD k 0) (args.getD k 0) (argOut.getD (base + k) 0) count).2)
          j (fun i2 hi2 hi2' => by omega)
        have hfr2 := writeLoop_frame_ne r base count vals args m (k+1)
          (out2.set (base + k)
            (Reducer.write r (vals.getD k 0) (args.getD k 0) (argOut.getD (base + k) 0) count).1,
           argOut.set (base + k)
            (Reducer.write r (vals.getD k 0) (args.getD k 0) (argOut.getD (base + k) 0) count).2)
          j (fun i2 hi2 hi2' => by omega)
        rw [hfr1.1, hfr2.1]
        dsimp only
        subst hj
        by_cases hb : base + k < out.length
        · rw [getD_set_self _ _ _ hb, getD_set_self _ _ _ (hlen ▸ hb)]
        · rw [List.set_eq_of_length_le (by omega), List.set_eq_of_length_le (by omega),
            getD_of_le _ _ (by omega), getD_of_le _ _ (by omega)]
      · exact (ih (k+1) _ _ _ (by simp [List.length_set, hlen])).2 j i hik (by omega) hj

/-- The CSR outer loop writes the same values into two output buffers of equal length:
every written position's value is independent of the buffer's prior contents, and the
argument output and persisting `args` evolve identically. -/
lemma csrLoop_congr (r : ReductionType) (src indptr : List Int) (M E K : Nat) :
    ∀ rem n out out2 argOut args, out.length = out2.length →
      ((csrLoop r src indptr M E K n rem (out, argOut, args)).2 =
        (csrLoop r src indptr M E K n rem (out2, argOut, args)).2) ∧
      ∀ j g i, n ≤ g → g < n + rem → i < K → j = g * K + i →
        (csrLoop r src indptr M E K n rem (out, argOut, args)).1.getD j 0 =
        (csrLoop r src indptr M E K n rem (out2, argOut, args)).1.getD j 0 := by
  intro rem
  induction rem with
  | zero => intro n out out2 argOut args _; exact ⟨rfl, fun j g i h1 h2 _ _ => by omega⟩
  | succ m ih =>
    intro n out out2 argOut args hlen
    simp only [csrLoop]
    have hwc := writeLoop_congr r (n * K)
      (indptr.getD (n / (M - 1) * M + n % (M - 1) + 1) 0 -
        indptr.getD (n / (M - 1) * M + n % (M - 1)) 0)
      (csrEloop r src (n / (M - 1) * E * K) K
        (indptr.getD (n / (M - 1) * M + n % (M - 1)) 0).toNat
        ((indptr.getD (n / (M - 1) * M + n % (M - 1) + 1) 0 -
          indptr.getD (n / (M - 1) * M + n % (M - 1)) 0).toNat)
        (List.replicate K (Reducer.init r), args)).1
      (csrEloop r src (n / (M - 1) * E * K) K
        (indptr.getD (n / (M - 1) * M + n % (M - 1)) 0).toNat
        ((indptr.getD (n / (M - 1) * M + n % (M - 1) + 1) 0 -
          indptr.getD (n / (M - 1) * M + n % (M - 1)) 0).toNat)
        (List.replicate K (Reducer.init r), args)).2
      K 0 out out2 argOut hlen
    rw [hwc.1]
    constructor
    · refine (ih (n+1) _ _ _ _ ?_).1
      exact writeLoop_length_fst_congr _ _ _ _ _ _ _ _ _ _ hlen
    · intro j g i hg1 hg2 hiK hj
      rcases Nat.eq_or_lt_of_le hg1 with rfl | hgn
      · have hge : ∀ g2 i2, n + 1 ≤ g2 → g2 < n + 1 + m → i2 < K → j ≠ g2 * K + i2 := by
          intro g2 i2 hg2' _ hi2
          have hmul : (n + 1) * K ≤ g2 * K := Nat.mul_le_mul_right K hg2'
          rw [Nat.succ_mul] at hmul
          omega
        rw [(csrLoop_frame_ne r src indptr M E K m (n+1) _ j hge).1,
          (csrLoop_frame_ne r src indptr M E K m (n+1) _ j hge).1]
        exact hwc.2 j i (Nat.zero_le i) (by omega) hj
      · refine (ih (n+1) _ _ _ _ ?_).2 j g i hgn (by omega) hiK hj
        exact writeLoop_length_fst_congr _ _ _ _ _ _ _ _ _ _ hlen

end CsrLemmas

section CooLemmas

/-- Distinct lane-block decompositions give distinct flat positions. -/
lemma mul_add_lt_ne (a b j k K : Nat) (hj : j < K) (hk : k < K) (hne : a ≠ b) :
    a * K + j ≠ b * K + k := by
  intro h
  rcases Nat.lt_or_ge a b with hab | hab
  · have hm : (a + 1) * K ≤ b * K := Nat.mul_le_mul_right K hab
    rw [Nat.succ_mul] at hm
    omega
  · have hba : b < a := by omega
    have hm : (b + 1) * K ≤ a * K := Nat.mul_le_mul_right K hba
    rw [Nat.succ_mul] at hm
    omega

lemma lookupReduce_inv (reduce : String) (r : ReductionType)
    (h : lookupReduce reduce = some r) :
    (reduce = "sum" ∧ r = SUM) ∨ (reduce = "add" ∧ r = SUM) ∨
    (reduce = "mean" ∧ r = MEAN) ∨ (reduce = "min" ∧ r = MIN) ∨
    (reduce = "max" ∧ r = MAX) := by
  simp only [lookupReduce, reduce2REDUCE, List.lookup] at h
  repeat' split at h
  all_goals simp_all

lemma cooInner_length (r : ReductionType) (src index : List Int) (e1 E2 K N : Nat) :
    ∀ fuel e2 st st', cooInner r src index e1 E2 K N e2 fuel st = some st' →
      st'.out.length = st.out.length ∧ st'.argOut.length = st.argOut.length := by
  intro fuel
  induction fuel with
  | zero =>
    intro e2 st st' h
    simp only [cooInner, Option.some.injEq] at h
    subst h
    exact ⟨rfl, rfl⟩
  | succ f ih =>
    intro e2 st st' h
    cases f with
    | zero =>
      simp only [cooInner, Option.some.injEq] at h
      subst h
      exact ⟨(writeLoop_length _ _ _ _ _ _ _ _).1, (writeLoop_length _ _ _ _ _ _ _ _).2⟩
    | succ f2 =>
      simp only [cooInner] at h
      by_cases h1 : st.idx ≤ index.getD (e1 * E2 + e2 + 1) 0
      · rw [if_pos h1] at h
        by_cases h2 : st.idx ≠ index.getD (e1 * E2 + e2 + 1) 0
        · rw [if_pos h2] at h
          have hr := ih (e2+1) _ st' h
          refine ⟨hr.1.trans ?_, hr.2.trans ?_⟩
          · exact (flushLoop_length _ _ _ _ _ _ _ _).1
          · exact (flushLoop_length _ _ _ _ _ _ _ _).2.1
        · rw [if_neg h2] at h
          have hr := ih (e2+1) _ st' h
          exact hr
      · rw [if_neg h1] at h
        simp at h

lemma cooBlocks_length (r : ReductionType) (src index : List Int) (E2 K N : Nat) :
    ∀ remB e1 st stB, cooBlocks r src index E2 K N e1 remB st = some stB →
      stB.1.length = st.1.length ∧ stB.2.1.length = st.2.1.length := by
  intro remB
  induction remB with
  | zero =>
    intro e1 st stB h
    simp only [cooBlocks, Option.some.injEq] at h
    subst h
    exact ⟨rfl, rfl⟩
  | succ m ih =>
    intro e1 st stB h
    simp only [cooBlocks] at h
    cases hI : cooInner r src index e1 E2 K N 0 E2
        ⟨st.1, st.2.1, (List.range K).map (fun k => st.1.getD (e1 * N * K + k) 0), st.2.2,
         index.getD (e1 * E2) 0, 0⟩ with
    | none => rw [hI] at h; simp at h
    | some stI =>
      rw [hI] at h
      have hIl := cooInner_length r src index e1 E2 K N E2 0 _ stI hI
      have hr := ih (e1+1) _ stB h
      exact ⟨hr.1.trans hIl.1, hr.2.trans hIl.2⟩

/-- Under the sortedness invariant (the invariant of the loop is that `idx` is the
index value at the current position `e2`), the inner loop's assertion never fires. -/
lemma cooInner_sorted_some (r : ReductionType) (src index : List Int) (e1 E2 K N : Nat)
    (hs : ∀ e2', e2' + 1 < E2 →
      index.getD (e1 * E2 + e2') 0 ≤ index.getD (e1 * E2 + e2' + 1) 0) :
    ∀ fuel e2 st, e2 + fuel = E2 → st.idx = index.getD (e1 * E2 + e2) 0 →
      ∃ st', cooInner r src index e1 E2 K N e2 fuel st = some st' := by
  intro fuel
  induction fuel with
  | zero => intro e2 st _ _; exact ⟨st, rfl⟩
  | succ f ih =>
    intro e2 st hE hidx
    cases f with
    | zero => exact ⟨_, rfl⟩
    | succ f2 =>
      simp only [cooInner]
      have hle : st.idx ≤ index.getD (e1 * E2 + e2 + 1) 0 := by
        rw [hidx]
        exact hs e2 (by omega)
      rw [if_pos hle]
      by_cases hne : st.idx ≠ index.getD (e1 * E2 + e2 + 1) 0
      · rw [if_pos hne]
        exact ih (e2+1) _ (by omega) rfl
      · rw [if_neg hne]
        exact ih (e2+1) _ (by omega) rfl

lemma cooBlocks_sorted_some (r : ReductionType) (src index : List Int) (E2 K N E1 : Nat)
    (hs : ∀ e1 e2', e1 < E1 → e2' + 1 < E2 →
      index.getD (e1 * E2 + e2') 0 ≤ index.getD (e1 * E2 + e2' + 1) 0) :
    ∀ remB e1 st, e1 + remB = E1 →
      ∃ stB, cooBlocks r src index E2 K N e1 remB st = some stB := by
  intro remB
  induction remB with
  | zero => intro e1 st _; exact ⟨st, rfl⟩
  | succ m ih =>
    intro e1 st hE
    obtain ⟨stI, hI⟩ := cooInner_sorted_some r src index e1 E2 K N
      (fun e2' h => hs e1 e2' (by omega) h) E2 0
      ⟨st.1, st.2.1, (List.range K).map (fun k => st.1.getD (e1 * N * K + k) 0), st.2.2,
       index.getD (e1 * E2) 0, 0⟩ (by omega) (by rw [Nat.add_zero])
    simp only [cooBlocks]
    rw [hI]
    exact ih (e1+1) _ (by omega)

/-- The inner loop writes the output only at positions
`e1*N*K + idx*K + j` where `idx` is one of this block's index values: any other
position is left unchanged. -/
lemma cooInner_frame (r : ReductionType) (src index : List Int) (e1 E2 K N : Nat) (p : Nat)
    (hp : ∀ e2' j, e2' < E2 → j < K →
      p ≠ e1 * N * K + (index.getD (e1 * E2 + e2') 0).toNat * K + j) :
    ∀ fuel e2 st st', e2 + fuel = E2 → st.idx = index.getD (e1 * E2 + e2) 0 →
      cooInner r src index e1 E2 K N e2 fuel st = some st' →
      st'.out.getD p 0 = st.out.getD p 0 := by
  intro fuel
  induction fuel with
  | zero =>
    intro e2 st st' _ _ h
    simp only [cooInner, Option.some.injEq] at h
    subst h
    rfl
  | succ f ih =>
    intro e2 st st' hE hidx h
    cases f with
    | zero =>
      simp only [cooInner, Option.some.injEq] at h
      subst h
      refine (writeLoop_frame_ne _ _ _ _ _ _ _ _ _ ?_).1
      intro i h0 hik
      rw [hidx]
      exact hp e2 i (by omega) (by omega)
    | succ f2 =>
      simp only [cooInner] at h
      by_cases h1 : st.idx ≤ index.getD (e1 * E2 + e2 + 1) 0
      · rw [if_pos h1] at h
        by_cases h2 : st.idx ≠ index.getD (e1 * E2 + e2 + 1) 0
        · rw [if_pos h2] at h
          have hr := ih (e2+1) _ st' (by omega) rfl h
          rw [hr]
          refine (flushLoop_frame_ne _ _ _ _ _ _ _ _ _ ?_).1
          intro i h0 hik
          rw [hidx]
          exact hp e2 i (by omega) (by omega)
        · rw [if_neg h2] at h
          have hr := ih (e2+1) _ st' (by omega) rfl h
          exact hr
      · rw [if_neg h1] at h
        simp at h

lemma cooBlocks_frame (r : ReductionType) (src index : List Int) (E2 K N E1 : Nat)
    (p : Nat)
    (hp : ∀ e1' e2' j, e1' < E1 → e2' < E2 → j < K →
      p ≠ e1' * N * K + (index.getD (e1' * E2 + e2') 0).toNat * K + j) :
    ∀ remB e1 st stB, e1 + remB = E1 →
      cooBlocks r src index E2 K N e1 remB st = some stB →
      stB.1.getD p 0 = st.1.getD p 0 := by
  intro remB
  induction remB with
  | zero =>
    intro e1 st stB _ h
    simp only [cooBlocks, Option.some.injEq] at h
    subst h
    rfl
  | succ m ih =>
    intro e1 st stB hE h
    simp only [cooBlocks] at h
    cases hI : cooInner r src index e1 E2 K N 0 E2
        ⟨st.1, st.2.1, (List.range K).map (fun k => st.1.getD (e1 * N * K + k) 0), st.2.2,
         index.getD (e1 * E2) 0, 0⟩ with
    | none => rw [hI] at h; simp at h
    | some stI =>
      rw [hI] at h
      have hr := ih (e1+1) _ stB (by omega) h
      refine hr.trans ?_
      exact cooInner_frame r src index e1 E2 K N p
        (fun e2' j he hj => hp e1 e2' j (by omega) he hj) E2 0 _ stI (by omega)
        (by rw [Nat.add_zero]) hI

/-- Reduction kind is MIN/MAX exactly when the reduce string is "min"/"max". -/
lemma minmax_string (reduce : String) (r : ReductionType) (h : lookupReduce reduce = some r) :
    (r = MIN ∨ r = MAX) ↔ (reduce = "min" ∨ reduce = "max") := by
  rcases lookupReduce_inv reduce r h with ⟨h1,h2⟩|⟨h1,h2⟩|⟨h1,h2⟩|⟨h1,h2⟩|⟨h1,h2⟩ <;>
    subst h1 <;> subst h2 <;> simp

/-- A decrease of the index values anywhere at or after the current position of the
block trips the `assert(idx <= next_idx)`: the inner loop returns `none`.  The loop
checks every consecutive pair before advancing, so it either fails at an earlier pair
or reaches the decreasing one and fails there. -/
lemma cooInner_unsorted_none (r : ReductionType) (src index : List Int) (e1 E2 K N : Nat) :
    ∀ fuel e2 st, e2 + fuel = E2 → st.idx = index.getD (e1 * E2 + e2) 0 →
      (∃ e2', e2 ≤ e2' ∧ e2' + 1 < E2 ∧
        index.getD (e1 * E2 + e2' + 1) 0 < index.getD (e1 * E2 + e2') 0) →
      cooInner r src index e1 E2 K N e2 fuel st = none := by
  intro fuel
  induction fuel with
  | zero =>
    intro e2 st hE _ hex
    obtain ⟨e2', h1, h2, _⟩ := hex
    omega
  | succ f ih =>
    intro e2 st hE hidx hex
    obtain ⟨e2', h1, h2, hdec⟩ := hex
    cases f with
    | zero => omega
    | succ f2 =>
      simp only [cooInner]
      by_cases hle : st.idx ≤ index.getD (e1 * E2 + e2 + 1) 0
      · rw [if_pos hle]
        have he2' : e2 + 1 ≤ e2' := by
          rcases Nat.eq_or_lt_of_le h1 with rfl | h
          · exfalso
            rw [hidx] at hle
            omega
          · omega
        by_cases hne : st.idx ≠ index.getD (e1 * E2 + e2 + 1) 0
        · rw [if_pos hne]
          exact ih (e2+1) _ (by omega) rfl ⟨e2', he2', h2, hdec⟩
        · rw [if_neg hne]
          exact ih (e2+1) _ (by omega) rfl ⟨e2', he2', h2, hdec⟩
      · rw [if_neg hle]

/-- A decrease of the index values within any outer block at or after the current one
makes the whole block loop return `none`: earlier blocks either trip themselves or
complete, and the violating block trips. -/
lemma cooBlocks_unsorted_none (r : ReductionType) (src index : List Int) (E2 K N E1 : Nat) :
    ∀ remB e1 st, e1 + remB = E1 →
      (∃ eb e2', e1 ≤ eb ∧ eb < E1 ∧ e2' + 1 < E2 ∧
        index.getD (eb * E2 + e2' + 1) 0 < index.getD (eb * E2 + e2') 0) →
      cooBlocks r src index E2 K N e1 remB st = none := by
  intro remB
  induction remB with
  | zero =>
    intro e1 st hE hex
    obtain ⟨eb, e2', h1, h2, _, _⟩ := hex
    omega
  | succ m ih =>
    intro e1 st hE hex
    obtain ⟨eb, e2', h1, h2, h3, hdec⟩ := hex
    simp only [cooBlocks]
    cases hI : cooInner r src index e1 E2 K N 0 E2
        ⟨st.1, st.2.1, (List.range K).map (fun k => st.1.getD (e1 * N * K + k) 0), st.2.2,
         index.getD (e1 * E2) 0, 0⟩ with
    | none => rfl
    | some stI =>
      by_cases heb : eb = e1
      · rw [heb] at hdec
        exact Option.noConfusion (hI.symm.trans (cooInner_unsorted_none r src index e1 E2 K N
          E2 0
          ⟨st.1, st.2.1, (List.range K).map (fun k => st.1.getD (e1 * N * K + k) 0), st.2.2,
           index.getD (e1 * E2) 0, 0⟩
          (by omega) (by rw [Nat.add_zero]) ⟨e2', Nat.zero_le e2', h3, hdec⟩))
      · exact ih (e1+1) _ (by omega) ⟨eb, e2', by omega, h2, h3, hdec⟩

lemma segment_coo_eq (src index out : List Int) (E1 E2 K N : Nat) (reduce : String)
    (r : ReductionType) (h : lookupReduce reduce = some r) :
    segment_coo src index out E1 E2 K N reduce =
      match cooBlocks r src index E2 K N 0 E1
          (out, List.replicate out.length (Int.ofNat E2), List.replicate K 0) with
      | none => none
      | some st => some (st.1, if r = MIN ∨ r = MAX then some st.2.1 else none) := by
  unfold segment_coo
  rw [h]

end CooLemmas

/-- C1: for `segment_coo` with reduce="sum", the claim states that at the start of each
outer block the K accumulators are seeded from `out` at the current group index `idx`
(position `e_1*N*K + idx*K + k`), so that with `out` pre-seeded to `[0,0,0]` a first
call with `index=[0,0,1]`, `values=[1,2,3]` yields `[3,3,0]` and a second call into the
same `out` with `index=[2]`, `values=[4]` yields `[3,3,4]`.  The code (segment.cpp line
210) instead seeds from `out_data[e_1*N*K + k]`, dropping the `idx*K` term, so the
second call reads group 0's partial result 3, adds 4, and stores 7 at group 2: the
result is `[3,3,7]`, not `[3,3,4]`. -/
theorem C1_coo_seed_from_out :
    segment_coo [1,2,3] [0,0,1] [0,0,0] 1 3 1 3 "sum" = some ([3,3,0], none) ∧
    segment_coo [4] [2] [3,3,0] 1 1 1 3 "sum" = some ([3,3,7], none) ∧
    some ([3,3,7], (none : Option (List Int))) ≠ some ([3,3,4], none) := by
  refine ⟨by decide, by decide, by decide⟩

/-- C6: both kernels accept exactly the reduce strings "sum", "add", "mean", "min",
"max" (with "add" an alias of "sum"); any other string makes the `reduce2REDUCE.at`
lookup fail, modelled as `none`, before any reduction step runs, so no output is
produced. -/
theorem C6_reduce_strings :
    (∀ s : String, (lookupReduce s).isSome ↔
      (s = "sum" ∨ s = "add" ∨ s = "mean" ∨ s = "min" ∨ s = "max")) ∧
    lookupReduce "add" = some SUM ∧ lookupReduce "sum" = some SUM ∧
    lookupReduce "mean" = some MEAN ∧ lookupReduce "min" = some MIN ∧
    lookupReduce "max" = some MAX ∧
    (∀ s src indptr out0 B M E K, lookupReduce s = none →
      segment_csr src indptr out0 B M E K s = none) ∧
    (∀ s src index out E1 E2 K N, lookupReduce s = none →
      segment_coo src index out E1 E2 K N s = none) := by
  refine ⟨?_, rfl, rfl, rfl, rfl, rfl, ?_, ?_⟩
  · intro s
    simp only [lookupReduce, reduce2REDUCE, List.lookup]
    repeat' split
    all_goals simp_all
  · intro s src indptr out0 B M E K h
    unfold segment_csr
    rw [h]
  · intro s src index out E1 E2 K N h
    unfold segment_coo
    rw [h]

/-- C6 witness: the theorem applied at the concrete unknown string "avg". -/
theorem C6_reduce_strings_witness :
    segment_csr [1] [0,1] [0] 1 2 1 1 "avg" = none ∧
    segment_coo [1] [0] [0] 1 1 1 1 "avg" = none :=
  ⟨C6_reduce_strings.2.2.2.2.2.2.1 "avg" [1] [0,1] [0] 1 2 1 1 (by decide),
   C6_reduce_strings.2.2.2.2.2.2.2 "avg" [1] [0] [0] 1 1 1 1 (by decide)⟩

/-- C2: for `segment_csr` with reduce="sum" on 1-D `src` and 1-D `indptr`
(`B = 1`, `K = 1`, `M = N + 1`), `out[g]` is the sum of `src` over the half-open window
`[indptr[g], indptr[g+1])` for every group `g < N`; in particular
`values=[1,2,3,4,5]`, `offsets=[0,2,5]` give `output=[3,12]`. -/
theorem C2_csr_sum_ranges :
    (∀ src indptr out0 : List Int, ∀ N E : Nat,
      indptr.length = N + 1 → out0.length = N →
      ∃ outR, segment_csr src indptr out0 1 (N+1) E 1 "sum" = some (outR, none) ∧
        outR.length = N ∧
        ∀ g, g < N →
          outR.getD g 0 = intervalSum src (indptr.getD g 0) (indptr.getD (g+1) 0)) ∧
    segment_csr [1,2,3,4,5] [0,2,5] [0,0] 1 3 5 1 "sum" = some ([3,12], none) := by
  constructor
  · intro src indptr out0 N E hptr hout
    have hBM : 1 * (N + 1 - 1) = N := by omega
    rw [segment_csr_eq src indptr out0 1 (N+1) E 1 "sum" SUM rfl]
    simp only [hBM, show (SUM = MIN ∨ SUM = MAX) = False by simp, if_false]
    refine ⟨_, rfl, ?_, ?_⟩
    · rw [(csrLoop_length SUM src indptr (N+1) E 1 N 0 _).1]
      exact hout
    · intro g hg
      obtain ⟨aIn, h1, _⟩ := csrLoop_get1 SUM src indptr N E N 0 out0
        (List.replicate out0.length (Int.ofNat E)) (List.replicate 1 0)
        hout (by simp [hout]) (by simp) (by omega) g (by omega) (by omega)
      rw [h1, csrGroupWrite1, write_sum, csrGroup1]
      rw [show Reducer.init SUM = 0 from rfl, csrEloop_sum1, getD_singleton]
      rw [intervalSum]
      simp
  · decide

theorem C2_csr_sum_ranges_witness :
    ∃ outR, segment_csr [1,2,3,4,5] [0,2,5] [0,0] 1 3 5 1 "sum" = some (outR, none) ∧
      outR.length = 2 ∧
      ∀ g, g < 2 →
        outR.getD g 0 = intervalSum [1,2,3,4,5] ([0,2,5].getD g 0) ([0,2,5].getD (g+1) 0) :=
  C2_csr_sum_ranges.1 [1,2,3,4,5] [0,2,5] [0,0] 2 5 rfl rfl

/-- C3: the MEAN finalize step writes `acc / max(count, 1)` (truncating int64
division), hence `acc / count` whenever `count > 0`, and the divisor is always
positive, so the division never has a zero divisor; a 1-D CSR group with
`count = 0` (empty window) gets value `0` because its accumulator is still the
identity `0`. -/
theorem C3_mean_div_by_max_count_one :
    (∀ val arg oldArg count : Int,
      Reducer.write MEAN val arg oldArg count = (Int.tdiv val (max count 1), oldArg) ∧
      0 < max count 1) ∧
    (∀ val arg oldArg count : Int, 0 < count →
      Reducer.write MEAN val arg oldArg count = (Int.tdiv val count, oldArg)) ∧
    (∀ src indptr out0 : List Int, ∀ N E : Nat,
      indptr.length = N + 1 → out0.length = N →
      ∀ outR argR, segment_csr src indptr out0 1 (N+1) E 1 "mean" = some (outR, argR) →
      ∀ g, g < N → indptr.getD g 0 = indptr.getD (g+1) 0 →
        outR.getD g 0 = 0) := by
  refine ⟨?_, ?_, ?_⟩
  · intro val arg oldArg count
    rw [write_mean]
    have hm : (if count > 0 then count else 1) = max count 1 := by split <;> omega
    rw [hm]
    exact ⟨rfl, by omega⟩
  · intro val arg oldArg count h
    rw [write_mean]
    simp [h]
  · intro src indptr out0 N E hptr hout outR argR hEq g hg hempty
    have hBM : 1 * (N + 1 - 1) = N := by omega
    rw [segment_csr_eq_mean src indptr out0 1 (N+1) E 1] at hEq
    simp only [hBM, Option.some.injEq, Prod.mk.injEq] at hEq
    obtain ⟨rfl, rfl⟩ := hEq
    obtain ⟨aIn, hv, _⟩ := csrLoop_get1 MEAN src indptr N E N 0 out0
      (List.replicate out0.length (Int.ofNat E)) (List.replicate 1 0)
      hout (by simp [hout]) (by simp) (by omega) g (by omega) (by omega)
    rw [hv, csrGroupWrite1, csrGroup1, hempty, Int.sub_self]
    simp [csrEloop, write_mean, Reducer.init]

/-- C3 witness: the division form at `count = 2` and the empty-group-to-zero policy at
the 1-D input `src=[1]`, `indptr=[0,0]`, reduce="mean". -/
theorem C3_mean_div_by_max_count_one_witness :
    Reducer.write MEAN 7 0 9 2 = (Int.tdiv 7 2, 9) ∧ ([0] : List Int).getD 0 0 = 0 :=
  ⟨C3_mean_div_by_max_count_one.2.1 7 0 9 2 (by decide),
   C3_mean_div_by_max_count_one.2.2 [1] [0,0] [0] 1 1 rfl rfl [0] none (by decide) 0
     (by decide) (by decide)⟩

/-- C5: for MIN/MAX the finalize step on an empty group (`count = 0`) writes `0` into
the value output and leaves the argument-output slot unchanged; consequently a 1-D CSR
group with `row_start = row_end` ends with value `0` and its argument-output entry
still the pre-filled sentinel `E = src.size(reduce_dim)`. -/
theorem C5_minmax_empty_group :
    (∀ r, (r = MIN ∨ r = MAX) → ∀ val arg oldArg : Int,
      Reducer.write r val arg oldArg 0 = (0, oldArg)) ∧
    (∀ reduce : String, reduce = "min" ∨ reduce = "max" →
      ∀ src indptr out0 : List Int, ∀ N E : Nat,
      indptr.length = N + 1 → out0.length = N →
      ∀ outR argR, segment_csr src indptr out0 1 (N+1) E 1 reduce = some (outR, some argR) →
      ∀ g, g < N → indptr.getD g 0 = indptr.getD (g+1) 0 →
        outR.getD g 0 = 0 ∧ argR.getD g 0 = Int.ofNat E) := by
  constructor
  · rintro r (rfl | rfl) val arg oldArg
    · exact write_min_nonpos val arg oldArg 0 (by omega)
    · exact write_max_nonpos val arg oldArg 0 (by omega)
  · rintro reduce hred src indptr out0 N E hptr hout outR argR hEq g hg hempty
    have hBM : 1 * (N + 1 - 1) = N := by omega
    have hsent : (List.replicate out0.length (Int.ofNat E)).getD g 0 = Int.ofNat E :=
      getD_replicate _ _ _ (by omega)
    rcases hred with rfl | rfl
    · rw [segment_csr_eq_min src indptr out0 1 (N+1) E 1] at hEq
      simp only [hBM, Option.some.injEq, Prod.mk.injEq] at hEq
      obtain ⟨rfl, rfl⟩ := hEq
      obtain ⟨aIn, hv, ha⟩ := csrLoop_get1 MIN src indptr N E N 0 out0
        (List.replicate out0.length (Int.ofNat E)) (List.replicate 1 0)
        hout (by simp [hout]) (by simp) (by omega) g (by omega) (by omega)
      rw [hv, ha, csrGroupWrite1, hempty, Int.sub_self,
        write_min_nonpos _ _ _ _ (by omega), hsent]
      exact ⟨rfl, rfl⟩
    · rw [segment_csr_eq_max src indptr out0 1 (N+1) E 1] at hEq
      simp only [hBM, Option.some.injEq, Prod.mk.injEq] at hEq
      obtain ⟨rfl, rfl⟩ := hEq
      obtain ⟨aIn, hv, ha⟩ := csrLoop_get1 MAX src indptr N E N 0 out0
        (List.replicate out0.length (Int.ofNat E)) (List.replicate 1 0)
        hout (by simp [hout]) (by simp) (by omega) g (by omega) (by omega)
      rw [hv, ha, csrGroupWrite1, hempty, Int.sub_self,
        write_max_nonpos _ _ _ _ (by omega), hsent]
      exact ⟨rfl, rfl⟩

/-- C5 witness: `src=[7]`, `indptr=[0,0]`, reduce="min" — the empty group yields value
`0` and the argument output keeps the sentinel `E = 1`. -/
theorem C5_minmax_empty_group_witness :
    Reducer.write MIN 5 3 9 0 = (0, 9) ∧
    (([0] : List Int).getD 0 0 = 0 ∧ ([1] : List Int).getD 0 0 = Int.ofNat 1) :=
  ⟨C5_minmax_empty_group.1 MIN (Or.inl rfl) 5 3 9,
   C5_minmax_empty_group.2 "min" (Or.inl rfl) [7] [0,0] [0] 1 1 rfl rfl [0] [1]
     (by decide) 0 (by decide) (by decide)⟩

/-- C4: `Reducer::update` changes the accumulator and argument slot only under the
strict comparison `new_val < val` for MIN (resp. `>` for MAX), so later equal values
never overwrite; consequently in 1-D `segment_csr` with reduce="min", for every
nonempty group whose window values are below `Reducer::init` (`scalarMax`), the
argument output records the lowest source index attaining the group minimum; in
particular `values=[3,3]`, `offsets=[0,2]` give `argOutput=[0]`. -/
theorem C4_min_strict_first_wins :
    (∀ val new_val arg new_arg : Int,
      (new_val < val → Reducer.update MIN val new_val arg new_arg = (new_val, new_arg)) ∧
      (¬ new_val < val → Reducer.update MIN val new_val arg new_arg = (val, arg)) ∧
      (val < new_val → Reducer.update MAX val new_val arg new_arg = (new_val, new_arg)) ∧
      (¬ val < new_val → Reducer.update MAX val new_val arg new_arg = (val, arg))) ∧
    (∀ src indptr out0 : List Int, ∀ N E : Nat,
      indptr.length = N + 1 → out0.length = N →
      ∀ outR argR, segment_csr src indptr out0 1 (N+1) E 1 "min" = some (outR, some argR) →
      ∀ g, g < N →
        indptr.getD g 0 < indptr.getD (g+1) 0 →
        (∀ j, j < (indptr.getD (g+1) 0 - indptr.getD g 0).toNat →
          src.getD ((indptr.getD g 0).toNat + j) 0 < scalarMax) →
        ∃ j, j < (indptr.getD (g+1) 0 - indptr.getD g 0).toNat ∧
          argR.getD g 0 = Int.ofNat ((indptr.getD g 0).toNat + j) ∧
          src.getD ((indptr.getD g 0).toNat + j) 0 = outR.getD g 0 ∧
          (∀ j2, j2 < (indptr.getD (g+1) 0 - indptr.getD g 0).toNat →
            outR.getD g 0 ≤ src.getD ((indptr.getD g 0).toNat + j2) 0) ∧
          (∀ j2, j2 < j →
            outR.getD g 0 < src.getD ((indptr.getD g 0).toNat + j2) 0)) ∧
    segment_csr [3,3] [0,2] [0] 1 2 2 1 "min" = some ([3], some [0]) := by
  refine ⟨?_, ?_, by decide⟩
  · intro val new_val arg new_arg
    exact ⟨fun h => update_min_lt _ _ _ _ h, fun h => update_min_not_lt _ _ _ _ h,
           fun h => update_max_gt _ _ _ _ h, fun h => update_max_not_gt _ _ _ _ h⟩
  · intro src indptr out0 N E hptr hout outR argR hEq g hg hlt hbound
    have hBM : 1 * (N + 1 - 1) = N := by omega
    rw [segment_csr_eq_min src indptr out0 1 (N+1) E 1, hBM] at hEq
    simp only [Option.some.injEq, Prod.mk.injEq] at hEq
    obtain ⟨rfl, rfl⟩ := hEq
    obtain ⟨aIn, hv, ha⟩ := csrLoop_get1 MIN src indptr N E N 0 out0
      (List.replicate out0.length (Int.ofNat E)) (List.replicate 1 0)
      hout (by simp [hout]) (by simp) (by omega) g (by omega) (by omega)
    rw [hv, ha, csrGroupWrite1, write_min_pos _ _ _ _ (by omega), csrGroup1]
    obtain ⟨⟨hb1, hb2⟩, hd⟩ := csrEloop_min1 src 0
      ((indptr.getD (g+1) 0 - indptr.getD g 0).toNat) ((indptr.getD g 0).toNat)
      (Reducer.init MIN) aIn
    simp only [Nat.zero_add] at hb1 hb2 hd
    rcases hd with ⟨he1, he2⟩ | ⟨j, hj, hr1, hr2, hr3, hr4⟩
    · exfalso
      have h0 := hb2 0 (by omega)
      have hs0 := hbound 0 (by omega)
      rw [he1, show Reducer.init MIN = scalarMax from rfl] at h0
      omega
    · exact ⟨j, hj, hr1, hr2, hb2, hr4⟩

/-- C4 witness: the tie-break property applied at `values=[3,3]`, `offsets=[0,2]`,
reduce="min". -/
theorem C4_min_strict_first_wins_witness :
    ∃ j, j < (([0,2] : List Int).getD 1 0 - ([0,2] : List Int).getD 0 0).toNat ∧
      ([0] : List Int).getD 0 0 = Int.ofNat ((([0,2] : List Int).getD 0 0).toNat + j) ∧
      ([3,3] : List Int).getD ((([0,2] : List Int).getD 0 0).toNat + j) 0 =
        ([3] : List Int).getD 0 0 ∧
      (∀ j2, j2 < (([0,2] : List Int).getD 1 0 - ([0,2] : List Int).getD 0 0).toNat →
        ([3] : List Int).getD 0 0 ≤
          ([3,3] : List Int).getD ((([0,2] : List Int).getD 0 0).toNat + j2) 0) ∧
      (∀ j2, j2 < j →
        ([3] : List Int).getD 0 0 <
          ([3,3] : List Int).getD ((([0,2] : List Int).getD 0 0).toNat + j2) 0) :=
  C4_min_strict_first_wins.2.1 [3,3] [0,2] [0] 1 2 rfl rfl [3] [0] (by decide) 0
    (by decide) (by decide) (by decide)

/-- C9: the value output of `segment_csr` does not depend on the prior contents of the
caller-supplied output buffer: two runs that differ only in the initial contents of
`out` (of the correct size `N*K = B*(M-1)*K`) return equal value outputs.  The kernel
never reads `out_data`; every one of the `N*K` positions is overwritten by the
finalize step of exactly one group. -/
theorem C9_csr_value_output_independent_of_out :
    ∀ src indptr out0 out0' : List Int, ∀ B M E K : Nat, ∀ reduce : String,
      out0.length = B * (M - 1) * K → out0'.length = B * (M - 1) * K →
      (segment_csr src indptr out0 B M E K reduce).map Prod.fst =
      (segment_csr src indptr out0' B M E K reduce).map Prod.fst := by
  intro src indptr out0 out0' B M E K reduce h1 h2
  cases hl : lookupReduce reduce with
  | none =>
    unfold segment_csr
    rw [hl]
  | some r =>
    rw [segment_csr_eq src indptr out0 B M E K reduce r hl,
        segment_csr_eq src indptr out0' B M E K reduce r hl]
    simp only [Option.map_some']
    refine congrArg some ?_
    rw [h1, h2]
    apply ext_of_getD
    · rw [(csrLoop_length _ _ _ _ _ _ _ _ _).1, (csrLoop_length _ _ _ _ _ _ _ _ _).1,
        h1, h2]
    · intro i
      by_cases hi : i < B * (M - 1) * K
      · have hK : 0 < K := by
          rcases Nat.eq_zero_or_pos K with rfl | h
          · simp at hi
          · exact h
        have hglt : i / K < B * (M - 1) := (Nat.div_lt_iff_lt_mul hK).mpr hi
        exact (csrLoop_congr r src indptr M E K (B * (M - 1)) 0 out0 out0' _ _
          (h1.trans h2.symm)).2 i (i / K) (i % K) (Nat.zero_le _) (by omega)
          (Nat.mod_lt _ hK) (by rw [Nat.mul_comm]; exact (Nat.div_add_mod i K).symm)
      · have l1 : (csrLoop r src indptr M E K 0 (B * (M - 1))
            (out0, List.replicate (B * (M - 1) * K) (Int.ofNat E),
             List.replicate K 0)).1.length = B * (M - 1) * K := by
          rw [(csrLoop_length _ _ _ _ _ _ _ _ _).1]; exact h1
        have l2 : (csrLoop r src indptr M E K 0 (B * (M - 1))
            (out0', List.replicate (B * (M - 1) * K) (Int.ofNat E),
             List.replicate K 0)).1.length = B * (M - 1) * K := by
          rw [(csrLoop_length _ _ _ _ _ _ _ _ _).1]; exact h2
        rw [getD_of_le _ _ (by rw [l1]; omega), getD_of_le _ _ (by rw [l2]; omega)]

/-- C9 witness: two different initial buffers, equal value outputs. -/
theorem C9_csr_value_output_independent_of_out_witness :
    (segment_csr [1,2,3,4,5] [0,2,5] [7,-4] 1 3 5 1 "sum").map Prod.fst =
    (segment_csr [1,2,3,4,5] [0,2,5] [0,0] 1 3 5 1 "sum").map Prod.fst :=
  C9_csr_value_output_independent_of_out [1,2,3,4,5] [0,2,5] [7,-4] [0,0] 1 3 5 1 "sum"
    rfl rfl

/-- C7: for any valid reduce kind, if the index array is non-decreasing along the
reduce dimension within every outer block then the `assert(idx <= next_idx)` never
fires and `segment_coo` completes; an index array that decreases anywhere trips the
assertion (modelled as `none`), as on `index=[1,0]`. -/
theorem C7_coo_sortedness_assert :
    (∀ src index out : List Int, ∀ E1 E2 K N : Nat, ∀ reduce : String,
      ∀ r, lookupReduce reduce = some r →
      (∀ e1 e2, e1 < E1 → e2 + 1 < E2 →
        index.getD (e1 * E2 + e2) 0 ≤ index.getD (e1 * E2 + e2 + 1) 0) →
      (segment_coo src index out E1 E2 K N reduce).isSome = true) ∧
    (∀ src index out : List Int, ∀ E1 E2 K N : Nat, ∀ reduce : String,
      ∀ e1 e2, e1 < E1 → e2 + 1 < E2 →
      index.getD (e1 * E2 + e2 + 1) 0 < index.getD (e1 * E2 + e2) 0 →
      segment_coo src index out E1 E2 K N reduce = none) ∧
    segment_coo [1,2] [1,0] [0,0] 1 2 1 2 "sum" = none := by
  refine ⟨?_, ?_, by decide⟩
  · intro src index out E1 E2 K N reduce r hl hs
    rw [segment_coo_eq src index out E1 E2 K N reduce r hl]
    obtain ⟨stB, hB⟩ := cooBlocks_sorted_some r src index E2 K N E1 hs E1 0
      (out, List.replicate out.length (Int.ofNat E2), List.replicate K 0) (by omega)
    rw [hB]
    rfl
  · intro src index out E1 E2 K N reduce e1 e2 he1 he2 hdec
    cases hl : lookupReduce reduce with
    | none =>
      unfold segment_coo
      rw [hl]
    | some r =>
      rw [segment_coo_eq src index out E1 E2 K N reduce r hl]
      rw [cooBlocks_unsorted_none r src index E2 K N E1 E1 0
        (out, List.replicate out.length (Int.ofNat E2), List.replicate K 0) (by omega)
        ⟨e1, e2, Nat.zero_le e1, he1, he2, hdec⟩]

/-- C7 witness: the sorted direction applied at `index=[0,0,1]` and the trip direction
applied at the decreasing pair of `index=[2,0,1]`. -/
theorem C7_coo_sortedness_assert_witness :
    (segment_coo [1,2,3] [0,0,1] [0,0,0] 1 3 1 3 "sum").isSome = true ∧
    segment_coo [1,2,3] [2,0,1] [0,0,0] 1 3 1 3 "sum" = none :=
  ⟨C7_coo_sortedness_assert.1 [1,2,3] [0,0,1] [0,0,0] 1 3 1 3 "sum" SUM rfl
    (by
      intro e1 e2 h1 h2
      interval_cases e1
      have he2 : e2 < 2 := by omega
      interval_cases e2 <;> decide),
   C7_coo_sortedness_assert.2.1 [1,2,3] [2,0,1] [0,0,0] 1 3 1 3 "sum" 0 0
    (by decide) (by decide) (by decide)⟩

/-- C10: `segment_coo` writes the value output only at group indices read from the
index array: for a completed call (result `some`) with all index values in `[0, N)`,
any group id `g < N` that does not occur among block `e1`'s index values has its
positions `out[e1*N*K + g*K + k]` unchanged. -/
theorem C10_coo_untouched_groups :
    ∀ src index out : List Int, ∀ E1 E2 K N : Nat, ∀ reduce : String,
      ∀ e1 g k, e1 < E1 → g < N → k < K →
      (∀ e1' e2', e1' < E1 → e2' < E2 →
        0 ≤ index.getD (e1' * E2 + e2') 0 ∧ index.getD (e1' * E2 + e2') 0 < (N : Int)) →
      (∀ e2', e2' < E2 → index.getD (e1 * E2 + e2') 0 ≠ (g : Int)) →
      ∀ outR argR, segment_coo src index out E1 E2 K N reduce = some (outR, argR) →
      outR.getD (e1 * N * K + g * K + k) 0 = out.getD (e1 * N * K + g * K + k) 0 := by
  intro src index out E1 E2 K N reduce e1 g k he1 hg hk hrange hgne outR argR h
  cases hl : lookupReduce reduce with
  | none =>
    have hnone : segment_coo src index out E1 E2 K N reduce = none := by
      unfold segment_coo
      rw [hl]
    rw [hnone] at h
    exact Option.noConfusion h
  | some r =>
    rw [segment_coo_eq src index out E1 E2 K N reduce r hl] at h
    cases hB : cooBlocks r src index E2 K N 0 E1
        (out, List.replicate out.length (Int.ofNat E2), List.replicate K 0) with
    | none =>
      rw [hB] at h
      exact Option.noConfusion h
    | some stB =>
      rw [hB] at h
      have hpair : (stB.1, if r = MIN ∨ r = MAX then some stB.2.1 else none) =
          (outR, argR) := by injection h
      rw [Prod.mk.injEq] at hpair
      obtain ⟨rfl, -⟩ := hpair
      have hp : ∀ e1' e2' j, e1' < E1 → e2' < E2 → j < K →
          e1 * N * K + g * K + k ≠
            e1' * N * K + (index.getD (e1' * E2 + e2') 0).toNat * K + j := by
        intro e1' e2' j he1' he2' hj
        obtain ⟨hv0, hvN⟩ := hrange e1' e2' he1' he2'
        have hvN' : (index.getD (e1' * E2 + e2') 0).toNat < N := by omega
        by_cases heq : e1' = e1
        · subst heq
          have hgv : g ≠ (index.getD (e1' * E2 + e2') 0).toNat := by
            have := hgne e2' he2'
            omega
          have hdm := mul_add_lt_ne g (index.getD (e1' * E2 + e2') 0).toNat k j K hk hj hgv
          omega
        · have hb1 : g * K + k < N * K := by
            have h1 : (g + 1) * K ≤ N * K := Nat.mul_le_mul_right K (by omega)
            rw [Nat.succ_mul] at h1
            omega
          have hb2 : (index.getD (e1' * E2 + e2') 0).toNat * K + j < N * K := by
            have h1 : ((index.getD (e1' * E2 + e2') 0).toNat + 1) * K ≤ N * K :=
              Nat.mul_le_mul_right K (by omega)
            rw [Nat.succ_mul] at h1
            omega
          have hdm := mul_add_lt_ne e1 e1' (g * K + k)
            ((index.getD (e1' * E2 + e2') 0).toNat * K + j) (N * K) hb1 hb2
            (fun hcon => heq hcon.symm)
          rw [← Nat.mul_assoc, ← Nat.mul_assoc] at hdm
          omega
      exact cooBlocks_frame r src index E2 K N E1 (e1 * N * K + g * K + k) hp E1 0
        (out, List.replicate out.length (Int.ofNat E2), List.replicate K 0) stB
        (by omega) hB

/-- C10 witness: block 0 of `index=[0]`, `N=2` never mentions group 1, so position 1
of `out=[1,2]` is returned unchanged. -/
theorem C10_coo_untouched_groups_witness :
    ([6,2] : List Int).getD (0 * 2 * 1 + 1 * 1 + 0) 0 =
    ([1,2] : List Int).getD (0 * 2 * 1 + 1 * 1 + 0) 0 :=
  C10_coo_untouched_groups [5] [0] [1,2] 1 1 1 2 "sum" 0 1 0 (by decide) (by decide)
    (by decide)
    (by
      intro a b ha hb
      interval_cases a
      interval_cases b
      decide)
    (by decide) [6,2] none (by decide)

/-- C8: for both kernels the argument output is present exactly for reduce="min" /
"max" (absent for "sum"/"add"/"mean"); when present it has the same number of entries
as `out` and is initialized to the sentinel `src.size(reduce_dim)` (`E` for CSR, `E2`
for COO) before any reduction runs — in particular when there are no groups/blocks to
reduce it is returned still holding the sentinel in every slot. -/
theorem C8_arg_output_iff_minmax :
    (∀ src indptr out0 : List Int, ∀ B M E K : Nat, ∀ reduce : String, ∀ r,
      lookupReduce reduce = some r →
      ∃ outR argR, segment_csr src indptr out0 B M E K reduce = some (outR, argR) ∧
        (argR.isSome = true ↔ (reduce = "min" ∨ reduce = "max")) ∧
        (∀ aL, argR = some aL → aL.length = out0.length) ∧
        (B * (M - 1) = 0 → ∀ aL, argR = some aL →
          aL = List.replicate out0.length (Int.ofNat E))) ∧
    (∀ src index out : List Int, ∀ E1 E2 K N : Nat, ∀ reduce : String, ∀ r,
      lookupReduce reduce = some r →
      ∀ outR argR, segment_coo src index out E1 E2 K N reduce = some (outR, argR) →
        (argR.isSome = true ↔ (reduce = "min" ∨ reduce = "max")) ∧
        (∀ aL, argR = some aL → aL.length = out.length) ∧
        (E1 = 0 → ∀ aL, argR = some aL →
          aL = List.replicate out.length (Int.ofNat E2))) := by
  constructor
  · intro src indptr out0 B M E K reduce r hl
    rw [segment_csr_eq src indptr out0 B M E K reduce r hl]
    by_cases hmm : r = MIN ∨ r = MAX
    · rw [if_pos hmm]
      refine ⟨_, _, rfl, ?_, ?_, ?_⟩
      · exact iff_of_true rfl ((minmax_string reduce r hl).mp hmm)
      · intro aL haL
        rw [Option.some.injEq] at haL
        subst haL
        rw [(csrLoop_length _ _ _ _ _ _ _ _ _).2.1, List.length_replicate]
      · intro hN aL haL
        rw [Option.some.injEq] at haL
        subst haL
        rw [hN]
        rfl
    · rw [if_neg hmm]
      refine ⟨_, _, rfl, ?_, ?_, ?_⟩
      · exact iff_of_false (by simp) (fun hc => hmm ((minmax_string reduce r hl).mpr hc))
      · intro aL haL
        exact Option.noConfusion haL
      · intro _ aL haL
        exact Option.noConfusion haL
  · intro src index out E1 E2 K N reduce r hl outR argR h
    rw [segment_coo_eq src index out E1 E2 K N reduce r hl] at h
    cases hB : cooBlocks r src index E2 K N 0 E1
        (out, List.replicate out.length (Int.ofNat E2), List.replicate K 0) with
    | none =>
      rw [hB] at h
      exact Option.noConfusion h
    | some stB =>
      rw [hB] at h
      have hpair : (stB.1, if r = MIN ∨ r = MAX then some stB.2.1 else none) =
          (outR, argR) := by injection h
      rw [Prod.mk.injEq] at hpair
      obtain ⟨-, rfl⟩ := hpair
      by_cases hmm : r = MIN ∨ r = MAX
      · rw [if_pos hmm]
        refine ⟨?_, ?_, ?_⟩
        · exact iff_of_true rfl ((minmax_string reduce r hl).mp hmm)
        · intro aL haL
          rw [Option.some.injEq] at haL
          subst haL
          rw [(cooBlocks_length r src index E2 K N E1 0 _ stB hB).2]
          simp
        · intro hE1 aL haL
          subst hE1
          have hstB : (out, List.replicate out.length (Int.ofNat E2),
              List.replicate K 0) = stB := by injection hB
          rw [Option.some.injEq] at haL
          subst haL
          rw [← hstB]
      · rw [if_neg hmm]
        refine ⟨?_, ?_, ?_⟩
        · exact iff_of_false (by simp) (fun hc => hmm ((minmax_string reduce r hl).mpr hc))
        · intro aL haL
          exact Option.noConfusion haL
        · intro _ aL haL
          exact Option.noConfusion haL

/-- C8 witness: both parts applied at concrete "min" inputs. -/
theorem C8_arg_output_iff_minmax_witness :
    (∃ outR argR, segment_csr [1,2] [0,2] [0] 1 2 2 1 "min" = some (outR, argR) ∧
      (argR.isSome = true ↔ ("min" = "min" ∨ "min" = "max")) ∧
      (∀ aL, argR = some aL → aL.length = ([0] : List Int).length) ∧
      (1 * (2 - 1) = 0 → ∀ aL, argR = some aL →
        aL = List.replicate ([0] : List Int).length (Int.ofNat 2))) ∧
    (((some [0] : Option (List Int)).isSome = true ↔ ("min" = "min" ∨ "min" = "max")) ∧
      (∀ aL, (some [0] : Option (List Int)) = some aL →
        aL.length = ([5] : List Int).length) ∧
      (1 = 0 → ∀ aL, (some [0] : Option (List Int)) = some aL →
        aL = List.replicate ([5] : List Int).length (Int.ofNat 1))) :=
  ⟨C8_arg_output_iff_minmax.1 [1,2] [0,2] [0] 1 2 2 1 "min" MIN rfl,
   C8_arg_output_iff_minmax.2 [1] [0] [5] 1 1 1 1 "min" MIN rfl [1] (some [0])
     (by decide)⟩

example : segment_csr [1,2,3,4,5] [0,2,5] [0,0] 1 3 5 1 "sum" = some ([3,12], none) := by decide

example : segment_csr [1,2,3,4,5] [0,2,5] [0,0] 1 3 5 1 "mean" = some ([1,4], none) := by decide

example : segment_csr [1,2] [0,0,2] [0,0] 1 3 2 1 "sum" = some ([0,3], none) := by decide

example : segment_csr [5,1,9,2] [0,2,4] [0,0] 1 3 4 1 "max" = some ([5,9], some [0,2]) := by decide

example : segment_csr [3,3] [0,2] [0] 1 2 2 1 "min" = some ([3], some [0]) := by decide

example : segment_coo [1,2,3] [0,0,1] [0,0,0] 1 3 1 3 "sum" = some ([3,3,0], none) := by decide

example : segment_coo [4] [2] [3,3,0] 1 1 1 3 "sum" = some ([3,3,7], none) := by decide

example : segment_coo [1,2] [1,0] [0,0] 1 2 1 2 "sum" = none := by decide

example : segment_csr [1,2] [0,2] [0] 1 2 2 1 "bogus" = none := by decide

end PytorchScatter
